import Mathlib

/-!
Verification of the debt-buddy-tracker ledger against its specification.

The development shallowly embeds the parts of the code the claims are
about:

* the client-side balance computations (`SearchPage.handleSearch`,
  `Index.fetchDebtors`, `AddPaymentPage.fetchDebtorsWithBalance`), which
  aggregate DECIMAL(12,2) amounts with JavaScript `Number` (IEEE-754
  binary64) arithmetic via `reduce((sum, r) => sum + Number(r.amount), 0)`;
* the payment submission handler (`AddPaymentPage.handleSubmit`), the
  debtor registration handler (`AddDebtorPage.handleSubmit`) and the
  debtor search (`SearchPage.handleSearch` with PostgREST `.single()`);
* the SQL schema: row types, CHECK constraints, `ON DELETE CASCADE`,
  row-level-security policies, and the `handle_new_user` trigger.

Binary64 arithmetic is modelled exactly: a float is a dyadic rational
`m * 2^e` (`F`), addition is exact addition followed by rounding to 53
significant bits with ties to even (`fadd`), and `Number(amount)` for a
DECIMAL(12,2) amount of `c` cents is the correctly rounded float of
`c / 100` (`jsNumber`).  Amounts in scope (≤ 10^10 dollars, list lengths
in the thousands) never reach binary64 overflow or subnormals, so the
unbounded-exponent model agrees with IEEE-754 binary64 there.  The model
reproduces, e.g., `0.1 + 0.2 + 0.3 = 0.6000000000000001` and
`0.3 + 0.2 + 0.1 = 0.6`.
-/

namespace DebtBuddy

/-- A binary floating-point value `m * 2^e` (the representation is not
required to be canonical; the interpretation is `F.val`). -/
structure F where
  m : ℤ
  e : ℤ
deriving DecidableEq, Repr

namespace F

/-- The exact rational value represented. -/
def val (x : F) : ℚ := (x.m : ℚ) * (2 : ℚ) ^ x.e

def zero : F := ⟨0, 0⟩

def neg (x : F) : F := ⟨-x.m, x.e⟩

end F

/-- Number of binary digits of `n` (0 for 0), fuel-driven so that the
kernel can evaluate it. Call with `fuel ≥ n`. -/
def bitLen (fuel n : ℕ) : ℕ :=
  match fuel with
  | 0 => 0
  | f + 1 => if n = 0 then 0 else bitLen f (n / 2) + 1

/-- Binary length of `n`. -/
def blen (n : ℕ) : ℕ := bitLen n n

/-- Represent the nonnegative rational `(a/b) * 2^(-e)` as an integer
pair `(A, B)` with value `A / B`. -/
def scaledPair (a b : ℕ) (e : ℤ) : ℕ × ℕ :=
  if e ≤ 0 then (a * 2 ^ (-e).toNat, b) else (a, b * 2 ^ e.toNat)

/-- Pick the exponent `e` with `(a/b) * 2^(-e) ∈ [2^52, 2^53)`. -/
def pickE (a b : ℕ) : ℤ :=
  let e1 : ℤ := (blen a : ℤ) - (blen b : ℤ) - 52
  let p := scaledPair a b e1
  if 2 ^ 52 * p.2 ≤ p.1 then e1 else e1 - 1

/-- Round the nonnegative value `q + r/B` (with `r < B`) to an integer,
ties to even. -/
def rnd53 (q r B : ℕ) : ℕ :=
  if B < 2 * r then q + 1
  else if 2 * r < B then q
  else if q % 2 = 0 then q else q + 1

/-- Correctly rounded (nearest, ties to even) binary64 value of the
positive rational `a / b`. -/
def divRound (a b : ℕ) : F :=
  let e := pickE a b
  let p := scaledPair a b e
  ⟨(rnd53 (p.1 / p.2) (p.1 % p.2) p.2 : ℤ), e⟩

/-- JS `Number(amount)` where `amount` is the DECIMAL(12,2) value of `c`
cents: the binary64 value nearest to `c / 100`. -/
def jsNumber (c : ℤ) : F :=
  if c < 0 then F.neg (divRound c.natAbs 100)
  else if c = 0 then F.zero
  else divRound c.natAbs 100

/-- Round the dyadic value `M * 2^E` to 53 significant bits, ties to
even. -/
def roundDyadic (M : ℤ) (E : ℤ) : F :=
  if M = 0 then F.zero
  else
    let n := M.natAbs
    let b := blen n
    if b ≤ 53 then ⟨M, E⟩
    else
      let s := b - 53
      let q := rnd53 (n / 2 ^ s) (n % 2 ^ s) (2 ^ s)
      ⟨(if M < 0 then -(q : ℤ) else (q : ℤ)), E + s⟩

/-- IEEE-754 binary64 addition (JS `+` on numbers): exact sum, then
round. -/
def fadd (x y : F) : F :=
  let e := min x.e y.e
  roundDyadic (x.m * 2 ^ (x.e - e).toNat + y.m * 2 ^ (y.e - e).toNat) e

/-- IEEE-754 binary64 subtraction (JS `-`). -/
def fsub (x y : F) : F := fadd x (F.neg y)

/-- JS `<` on (finite) float values. -/
def fltB (x y : F) : Bool :=
  let e := min x.e y.e
  decide (x.m * 2 ^ (x.e - e).toNat < y.m * 2 ^ (y.e - e).toNat)

/-- The summation `reduce((sum, row) => sum + Number(row.amount), 0)`
used by every balance computation in the code, over amounts in cents. -/
def sumAmounts (cents : List ℤ) : F :=
  (cents.map jsNumber).foldl fadd F.zero

/-- JS `String.prototype.toLowerCase` / SQL `lower` (ASCII fold),
structurally recursive so the kernel can evaluate it. -/
def lowerStr (s : String) : String :=
  String.mk (s.data.map Char.toLower)

/-- JS `String.prototype.trim`: remove surrounding whitespace. -/
def trimStr (s : String) : String :=
  String.mk (((s.data.dropWhile Char.isWhitespace).reverse.dropWhile
    Char.isWhitespace).reverse)

/-- The exact dollar total of a list of cent amounts (used to state what
the float aggregation would be under exact decimal arithmetic). -/
def dollarsOf (cents : List ℤ) : ℕ :=
  (cents.map (fun c => c.toNat / 100)).sum

/-- A nonnegative whole-dollar cent amount below `2^46` cents (covers the
DECIMAL(12,2) range). -/
def wholeDollar (c : ℤ) : Prop :=
  0 ≤ c ∧ c % 100 = 0 ∧ c < 2 ^ 46

instance (c : ℤ) : Decidable (wholeDollar c) :=
  inferInstanceAs (Decidable (_ ∧ _ ∧ _))

/-! ## Data model (SQL schema, 20251004...sql) -/

/-- A row of `public.debtors` (timestamps and `created_by` omitted: no
claim mentions them). -/
structure DebtorRow where
  id : String
  name : String
  phone_number : String
  guarantor_name : Option String
  guarantor_phone : Option String
deriving DecidableEq, Repr

/-- A row of `public.debts`; `amountCents` is the DECIMAL(12,2) amount in
cents, `date_recorded` an abstract timestamp. -/
structure DebtRow where
  debtor_id : String
  amountCents : ℤ
  reason : String
  date_recorded : ℕ
deriving DecidableEq, Repr

/-- A row of `public.payments`. -/
structure PaymentRow where
  debtor_id : String
  amountCents : ℤ
  date_paid : ℕ
deriving DecidableEq, Repr

/-! ## Balance computations (SearchPage, Index, AddPaymentPage) -/

/-- Insert into a list sorted by `key` descending. -/
def insertByDate {α : Type} (key : α → ℕ) (x : α) : List α → List α
  | [] => [x]
  | y :: ys => if key y < key x then x :: y :: ys else y :: insertByDate key x ys

/-- The `ORDER BY key DESC` applied by PostgREST `.order(..., { ascending:
false })` to a result set. -/
def sortByDateDesc {α : Type} (key : α → ℕ) (l : List α) : List α :=
  l.foldr (insertByDate key) []

/-- SearchPage's debts query: `WHERE debtor_id = did ORDER BY
date_recorded DESC`. -/
def debtsFor (debts : List DebtRow) (did : String) : List DebtRow :=
  sortByDateDesc (fun d => d.date_recorded) (debts.filter (fun d => d.debtor_id == did))

/-- SearchPage's payments query: `WHERE debtor_id = did ORDER BY
date_paid DESC`. -/
def paymentsFor (payments : List PaymentRow) (did : String) : List PaymentRow :=
  sortByDateDesc (fun p => p.date_paid) (payments.filter (fun p => p.debtor_id == did))

/-- The `{totalDebt, totalPaid, balance}` aggregate. -/
structure BalanceTriple where
  total_debt : F
  total_paid : F
  balance : F
deriving DecidableEq, Repr

/-- The three rational values of a balance triple. -/
def BalanceTriple.vals (t : BalanceTriple) : ℚ × ℚ × ℚ :=
  (t.total_debt.val, t.total_paid.val, t.balance.val)

/-- SearchPage.tsx lines 58–84: per-debtor balance, summing the
date-descending result sets. -/
def computeBalance (debts : List DebtRow) (payments : List PaymentRow) (did : String) :
    BalanceTriple :=
  let totalDebt := sumAmounts ((debtsFor debts did).map (fun d => d.amountCents))
  let totalPaid := sumAmounts ((paymentsFor payments did).map (fun p => p.amountCents))
  ⟨totalDebt, totalPaid, fsub totalDebt totalPaid⟩

/-- JS `x || 0` on a number: 0 is falsy, every other (finite) value
truthy. -/
def jsOr0 (x : F) : F := if x.m = 0 then F.zero else x

/-- Index.tsx lines 40–63 (`fetchDebtors`): for each debtor of the
(name-ordered) debtor list, sum the unordered per-debtor result sets;
the sums are written `... .reduce(...) || 0`. -/
def fetchDebtors (debtors : List DebtorRow) (debts : List DebtRow)
    (payments : List PaymentRow) : List (DebtorRow × BalanceTriple) :=
  debtors.map (fun dr =>
    let totalDebt :=
      jsOr0 (sumAmounts ((debts.filter (fun d => d.debtor_id == dr.id)).map
        (fun d => d.amountCents)))
    let totalPaid :=
      jsOr0 (sumAmounts ((payments.filter (fun p => p.debtor_id == dr.id)).map
        (fun p => p.amountCents)))
    (dr, ⟨totalDebt, totalPaid, fsub totalDebt totalPaid⟩))

/-! ## AddPaymentPage (part_001) -/

/-- Component state `DebtorWithBalance`. -/
structure DebtorWithBalance where
  id : String
  name : String
  phone_number : String
  balance : F
deriving DecidableEq, Repr

/-- AddPaymentPage `fetchDebtorsWithBalance`: per-debtor balances (same
query pair as Index, unordered, with `|| 0`), keeping only debtors with
`balance > 0`. -/
def fetchDebtorsWithBalance (debtors : List DebtorRow) (debts : List DebtRow)
    (payments : List PaymentRow) : List DebtorWithBalance :=
  (debtors.map (fun dr =>
    let totalDebt :=
      jsOr0 (sumAmounts ((debts.filter (fun d => d.debtor_id == dr.id)).map
        (fun d => d.amountCents)))
    let totalPaid :=
      jsOr0 (sumAmounts ((payments.filter (fun p => p.debtor_id == dr.id)).map
        (fun p => p.amountCents)))
    DebtorWithBalance.mk dr.id dr.name dr.phone_number
      (fsub totalDebt totalPaid))).filter (fun d => fltB F.zero d.balance)

/-- The insert payload sent by `supabase.from('payments').insert(...)`. -/
structure PaymentInsert where
  debtor_id : String
  amount : F
  created_by : String
deriving DecidableEq, Repr

/-- Outcomes of AddPaymentPage `handleSubmit` other than a successful
insert (each surfaces as a destructive toast and no insert). -/
inductive SubmitError where
  | noDebtorSelected
  | exceedsBalance
  | notAuthenticated
deriving DecidableEq, Repr

/-- AddPaymentPage `handleSubmit` (part_001 lines 91–146): reject when no
debtor is selected; reject when `amount > debtor.balance` (strict);
otherwise insert the payment row. `user` is the authenticated uid,
`payments` the stored payment rows (as insert payloads). -/
def handleSubmitPayment (user : Option String) (debtors : List DebtorWithBalance)
    (selectedDebtor : String) (amount : F) (payments : List PaymentInsert) :
    Except SubmitError (List PaymentInsert) :=
  if selectedDebtor = "" then .error .noDebtorSelected
  else
    let proceed : Except SubmitError (List PaymentInsert) :=
      match user with
      | none => .error .notAuthenticated
      | some uid => .ok (payments ++ [⟨selectedDebtor, amount, uid⟩])
    match debtors.find? (fun d => d.id == selectedDebtor) with
    | some debtor => if fltB debtor.balance amount then .error .exceedsBalance else proceed
    | none => proceed

/-! ## AddDebtorPage (part_000) -/

/-- The insert payload sent by `supabase.from('debtors').insert(...)`. -/
structure DebtorInsert where
  name : String
  phone_number : String
  guarantor_name : Option String
  guarantor_phone : Option String
deriving DecidableEq, Repr

/-- AddDebtorPage `handleSubmit` (part_000 lines 24–60): trim the four
text fields and send `guarantor.trim() || null`. No emptiness check is
performed on the trimmed values. -/
def handleSubmitDebtor (name phoneNumber guarantorName guarantorPhone : String) :
    DebtorInsert :=
  ⟨trimStr name, trimStr phoneNumber,
    (if trimStr guarantorName = "" then none else some (trimStr guarantorName)),
    (if trimStr guarantorPhone = "" then none else some (trimStr guarantorPhone))⟩

/-! ## SearchPage search (lines 38–91) -/

/-- Does `needle` start `hay`? -/
def startsWithChars : List Char → List Char → Bool
  | _, [] => true
  | [], _ :: _ => false
  | c :: cs, d :: ds => c == d && startsWithChars cs ds

/-- Does `needle` occur contiguously in `hay`? -/
def occursIn : List Char → List Char → Bool
  | [], needle => needle.isEmpty
  | c :: t, needle => startsWithChars (c :: t) needle || occursIn t needle

/-- PostgREST `column.ilike.%query%`: case-insensitive substring. -/
def ilike (query s : String) : Bool :=
  occursIn (lowerStr s).data (lowerStr query).data

/-- The `.or('name.ilike.%q%,phone_number.ilike.%q%')` filter. -/
def searchMatches (query : String) (d : DebtorRow) : Bool :=
  ilike query d.name || ilike query d.phone_number

/-- SearchPage `handleSearch`: the filter is combined with `.single()`,
which yields the row when exactly one row matches, and an error — which
the handler turns into the "not found" result (`setSearchResult(null)`) —
when zero or several rows match. -/
def searchDebtor (query : String) (debtors : List DebtorRow) : Option DebtorRow :=
  match debtors.filter (searchMatches query) with
  | [d] => some d
  | _ => none

/-! ## Roles and row-level security (part_003) -/

/-- `public.app_role`. -/
inductive Role where
  | admin
  | staff
  | viewer
deriving DecidableEq, Repr

/-- A row of `public.profiles` (timestamps omitted). -/
structure Profile where
  id : String
  phone_number : Option String
  full_name : String
  role : Role
deriving DecidableEq, Repr

/-- The identity tables: `auth.users`, `public.profiles`,
`public.user_roles`. -/
structure AuthState where
  users : List String
  profiles : List Profile
  user_roles : List (String × Role)
deriving DecidableEq, Repr

/-- `public.has_role(_user_id, _role)`: EXISTS over `user_roles`. -/
def has_role (s : AuthState) (uid : String) (r : Role) : Prop :=
  (uid, r) ∈ s.user_roles

instance (s : AuthState) (uid : String) (r : Role) : Decidable (has_role s uid r) :=
  inferInstanceAs (Decidable ((uid, r) ∈ s.user_roles))

/-- `public.get_user_role(_user_id)`: the `role` column of the user's
profile row, NULL when there is none. -/
def get_user_role (s : AuthState) (uid : String) : Option Role :=
  (s.profiles.find? (fun p => p.id == uid)).map (fun p => p.role)

/-- The `WITH CHECK` condition of the insert policies on `debtors`,
`debts` and `payments`: `has_role(uid,'admin') OR has_role(uid,'staff')`. -/
def canWriteRLS (s : AuthState) (uid : String) : Prop :=
  has_role s uid .admin ∨ has_role s uid .staff

instance (s : AuthState) (uid : String) : Decidable (canWriteRLS s uid) :=
  inferInstanceAs (Decidable (_ ∨ _))

/-- The ledger tables. -/
structure StoreState where
  debtors : List DebtorRow
  debts : List DebtRow
  payments : List PaymentRow
deriving DecidableEq, Repr

/-- Errors an insert can raise: a row-level-security `WITH CHECK`
violation (42501), a CHECK-constraint violation, a foreign-key
violation. -/
inductive StoreError where
  | forbidden
  | checkViolation
  | fkViolation
deriving DecidableEq, Repr

/-- INSERT INTO `debtors` as caller `uid` (`registerDebtor`): guarded by
the insert policy; the schema puts no constraint on the text columns
beyond NOT NULL. `newId` stands for the generated `gen_random_uuid()`. -/
def insertDebtor (auth : AuthState) (uid : String) (st : StoreState) (newId : String)
    (row : DebtorInsert) : Except StoreError StoreState :=
  if canWriteRLS auth uid then
    .ok { st with debtors := st.debtors ++
      [⟨newId, row.name, row.phone_number, row.guarantor_name, row.guarantor_phone⟩] }
  else .error .forbidden

/-- INSERT INTO `debts` (`recordDebt`): insert policy, `CHECK (amount >
0)`, foreign key `debtor_id → debtors.id`. -/
def insertDebt (auth : AuthState) (uid : String) (st : StoreState) (did : String)
    (amountCents : ℤ) (reason : String) (date : ℕ) : Except StoreError StoreState :=
  if ¬ canWriteRLS auth uid then .error .forbidden
  else if amountCents ≤ 0 then .error .checkViolation
  else if ¬ st.debtors.any (fun d => d.id == did) then .error .fkViolation
  else .ok { st with debts := st.debts ++ [⟨did, amountCents, reason, date⟩] }

/-- INSERT INTO `payments` (`recordPayment`): insert policy, `CHECK
(amount > 0)`, foreign key. -/
def insertPayment (auth : AuthState) (uid : String) (st : StoreState) (did : String)
    (amountCents : ℤ) (date : ℕ) : Except StoreError StoreState :=
  if ¬ canWriteRLS auth uid then .error .forbidden
  else if amountCents ≤ 0 then .error .checkViolation
  else if ¬ st.debtors.any (fun d => d.id == did) then .error .fkViolation
  else .ok { st with payments := st.payments ++ [⟨did, amountCents, date⟩] }

/-- DELETE FROM `debtors` WHERE `id = did` (`deleteDebtor`): the delete
policy `USING has_role(uid,'admin')` filters the visible rows (a
non-admin's delete silently affects zero rows — row-level security on
DELETE does not raise an error); `ON DELETE CASCADE` removes the
referencing `debts` and `payments` rows in the same transaction, so the
whole cascade is a single state transition. -/
def deleteDebtor (auth : AuthState) (uid : String) (st : StoreState) (did : String) :
    StoreState :=
  if has_role auth uid .admin then
    { debtors := st.debtors.filter (fun d => !(d.id == did)),
      debts := st.debts.filter (fun d => !(d.debtor_id == did)),
      payments := st.payments.filter (fun p => !(p.debtor_id == did)) }
  else st

/-- `public.handle_new_user`, fired `AFTER INSERT ON auth.users` in the
same transaction as the user insert: the new-user insert together with
its trigger is one atomic transition that creates the user, a profile
with role `'viewer'` and a `user_roles` row `('viewer')`. -/
def handle_new_user (s : AuthState) (uid : String) (phone : Option String)
    (meta_full_name : Option String) : AuthState :=
  { users := s.users ++ [uid],
    profiles := s.profiles ++ [⟨uid, phone, meta_full_name.getD "", Role.viewer⟩],
    user_roles := s.user_roles ++ [(uid, Role.viewer)] }

/-! ## Lemmas about the binary64 model -/

theorem bitLen_zero (f : ℕ) : bitLen f 0 = 0 := by
  cases f <;> simp [bitLen]

theorem bitLen_le_of_lt : ∀ (fuel n k : ℕ), n < 2 ^ k → bitLen fuel n ≤ k := by
  intro fuel
  induction fuel with
  | zero => intro n k _; simp [bitLen]
  | succ f ih =>
    intro n k h
    by_cases h0 : n = 0
    · simp [bitLen, h0]
    · have hk : 1 ≤ k := by
        by_contra hk
        interval_cases k
        · omega
      have h2 : n / 2 < 2 ^ (k - 1) := by
        have h2k : 2 ^ k = 2 * 2 ^ (k - 1) := by
          rw [← pow_succ']
          congr 1
          omega
        omega
      have := ih (n / 2) (k - 1) h2
      simp only [bitLen, h0, if_false]
      omega

theorem lt_two_pow_bitLen : ∀ (fuel n : ℕ), n ≤ fuel → n < 2 ^ bitLen fuel n := by
  intro fuel
  induction fuel with
  | zero => intro n h; interval_cases n; simp [bitLen]
  | succ f ih =>
    intro n h
    by_cases h0 : n = 0
    · simp [bitLen, h0]
    · have hrec := ih (n / 2) (by omega)
      simp only [bitLen, h0, if_false]
      have : 2 ^ (bitLen f (n / 2) + 1) = 2 * 2 ^ bitLen f (n / 2) := by
        rw [pow_succ]; ring
      omega

theorem two_pow_pred_bitLen_le : ∀ (fuel n : ℕ), n ≤ fuel → 1 ≤ n →
    2 ^ (bitLen fuel n - 1) ≤ n := by
  intro fuel
  induction fuel with
  | zero => intro n h h1; omega
  | succ f ih =>
    intro n h h1
    have h0 : ¬ n = 0 := by omega
    simp only [bitLen, h0, if_false, Nat.add_sub_cancel]
    by_cases hb : bitLen f (n / 2) = 0
    · rw [hb]
      omega
    · have h2 : ¬ n / 2 = 0 := by
        intro hz
        rw [hz, bitLen_zero] at hb
        exact hb rfl
      have hrec := ih (n / 2) (by omega) (by omega)
      have hstep : 2 ^ bitLen f (n / 2) = 2 * 2 ^ (bitLen f (n / 2) - 1) := by
        rw [← pow_succ']
        congr 1
        omega
      omega

theorem blen_le_of_lt (n k : ℕ) (h : n < 2 ^ k) : blen n ≤ k :=
  bitLen_le_of_lt n n k h

theorem lt_two_pow_blen (n : ℕ) : n < 2 ^ blen n :=
  lt_two_pow_bitLen n n le_rfl

theorem two_pow_pred_blen_le (n : ℕ) (h1 : 1 ≤ n) : 2 ^ (blen n - 1) ≤ n :=
  two_pow_pred_bitLen_le n n le_rfl h1

theorem F.val_zero : F.zero.val = 0 := by
  simp [F.val, F.zero]

theorem F.val_neg (x : F) : (F.neg x).val = -x.val := by
  simp [F.val, F.neg]

/-- Aligning a float to a smaller exponent keeps its value. -/
theorem val_align (x : F) (e0 : ℤ) (h : e0 ≤ x.e) :
    ((x.m * 2 ^ (x.e - e0).toNat : ℤ) : ℚ) * (2 : ℚ) ^ e0 = x.val := by
  have ht : ((x.e - e0).toNat : ℤ) = x.e - e0 := Int.toNat_of_nonneg (by omega)
  push_cast
  rw [F.val, ← zpow_natCast (2 : ℚ) ((x.e - e0).toNat), ht, mul_assoc,
    ← zpow_add₀ (by norm_num : (2 : ℚ) ≠ 0)]
  congr 2
  omega

/-- Rounding a dyadic value that is in fact an integer of magnitude
below `2^53` is exact. -/
theorem roundDyadic_val_int (M E a : ℤ) (hv : (M : ℚ) * (2 : ℚ) ^ E = (a : ℚ))
    (ha : a.natAbs < 2 ^ 53) : (roundDyadic M E).val = (a : ℚ) := by
  by_cases hM : M = 0
  · subst hM
    simp only [Int.cast_zero, zero_mul] at hv
    rw [roundDyadic]
    simp [F.val_zero, ← hv]
  · rw [roundDyadic]
    simp only [hM, if_false]
    by_cases hb : blen M.natAbs ≤ 53
    · simp only [hb, if_true]
      rw [← hv, F.val]
    · simp only [hb, if_false]
      have hn1 : 1 ≤ M.natAbs := by
        have := Int.natAbs_eq_zero.not.mpr hM
        omega
      have hnlow : 2 ^ 53 ≤ M.natAbs := by
        have h1 := two_pow_pred_blen_le M.natAbs hn1
        have h2 : 2 ^ 53 ≤ 2 ^ (blen M.natAbs - 1) :=
          Nat.pow_le_pow_right (by norm_num) (by omega)
        omega
      -- the exponent must be negative, else |a| would be ≥ 2^53
      have hE : E < 0 := by
        by_contra hEc
        push_neg at hEc
        have hEt : (E.toNat : ℤ) = E := Int.toNat_of_nonneg hEc
        have hq : (a : ℚ) = (M : ℚ) * ((2 : ℤ) ^ E.toNat : ℚ) := by
          push_cast
          rw [← zpow_natCast (2 : ℚ) E.toNat, hEt, hv]
        have hZ : a = M * 2 ^ E.toNat := by exact_mod_cast hq
        have hA : a.natAbs = M.natAbs * 2 ^ E.toNat := by
          rw [hZ, Int.natAbs_mul, Int.natAbs_pow]
          norm_num
        have hp : 0 < 2 ^ E.toNat := Nat.two_pow_pos _
        have := Nat.le_mul_of_pos_right M.natAbs hp
        omega
      -- M = a * 2^(-E) as integers
      have hMa : M = a * 2 ^ (-E).toNat := by
        have hEt : ((-E).toNat : ℤ) = -E := Int.toNat_of_nonneg (by omega)
        have hq : (M : ℚ) = (a : ℚ) * ((2 : ℤ) ^ (-E).toNat : ℚ) := by
          push_cast
          rw [← zpow_natCast (2 : ℚ) (-E).toNat, hEt, ← hv, mul_assoc,
            ← zpow_add₀ (by norm_num : (2 : ℚ) ≠ 0), add_neg_cancel, zpow_zero, mul_one]
        exact_mod_cast hq
      have hnEq : M.natAbs = a.natAbs * 2 ^ (-E).toNat := by
        rw [hMa, Int.natAbs_mul, Int.natAbs_pow]
        norm_num
      -- so the bits dropped by the rounding are all zero
      have hblen : blen M.natAbs ≤ 53 + (-E).toNat := by
        apply blen_le_of_lt
        conv_lhs => rw [hnEq]
        rw [pow_add]
        exact Nat.mul_lt_mul_right (Nat.two_pow_pos _) |>.mpr ha
      have hdvd : 2 ^ (blen M.natAbs - 53) ∣ M.natAbs := by
        have h1 : (2 : ℕ) ^ (blen M.natAbs - 53) ∣ 2 ^ (-E).toNat :=
          pow_dvd_pow 2 (by omega)
        have h2 : (2 : ℕ) ^ (-E).toNat ∣ M.natAbs := hnEq ▸ Dvd.intro a.natAbs (mul_comm _ _)
        exact h1.trans h2
      have hmod : M.natAbs % 2 ^ (blen M.natAbs - 53) = 0 :=
        Nat.mod_eq_zero_of_dvd hdvd
      rw [hmod]
      have hq : rnd53 (M.natAbs / 2 ^ (blen M.natAbs - 53)) 0 (2 ^ (blen M.natAbs - 53)) =
          M.natAbs / 2 ^ (blen M.natAbs - 53) := by
        have hp : 0 < 2 ^ (blen M.natAbs - 53) := Nat.two_pow_pos _
        simp [rnd53, hp]
      rw [hq]
      have hq0s : M.natAbs / 2 ^ (blen M.natAbs - 53) * 2 ^ (blen M.natAbs - 53) = M.natAbs :=
        Nat.div_mul_cancel hdvd
      have hc : ((M.natAbs / 2 ^ (blen M.natAbs - 53) : ℕ) : ℤ) *
          (2 : ℤ) ^ (blen M.natAbs - 53) = (M.natAbs : ℤ) := by
        exact_mod_cast congrArg (fun n : ℕ => (n : ℤ)) hq0s
      have hkeyZ : (if M < 0 then -((M.natAbs / 2 ^ (blen M.natAbs - 53) : ℕ) : ℤ)
          else ((M.natAbs / 2 ^ (blen M.natAbs - 53) : ℕ) : ℤ)) *
          (2 : ℤ) ^ (blen M.natAbs - 53) = M := by
        by_cases hMneg : M < 0
        · simp only [hMneg, if_true]
          rw [neg_mul, hc]
          omega
        · simp only [hMneg, if_false]
          rw [hc]
          omega
      rw [F.val]
      have hzp : (2 : ℚ) ^ (E + ((blen M.natAbs - 53 : ℕ) : ℤ)) =
          (((2 : ℤ) ^ (blen M.natAbs - 53) : ℤ) : ℚ) * (2 : ℚ) ^ E := by
        rw [zpow_add₀ (by norm_num : (2 : ℚ) ≠ 0)]
        push_cast
        rw [zpow_natCast]
        ring
      rw [hzp, ← mul_assoc]
      have hcast : (((if M < 0 then -((M.natAbs / 2 ^ (blen M.natAbs - 53) : ℕ) : ℤ)
          else ((M.natAbs / 2 ^ (blen M.natAbs - 53) : ℕ) : ℤ)) : ℤ) : ℚ) *
          (((2 : ℤ) ^ (blen M.natAbs - 53) : ℤ) : ℚ) = (M : ℚ) := by
        rw [← Int.cast_mul, hkeyZ]
      rw [hcast, hv]

/-- Adding two floats whose values are integers of small magnitude is
exact. -/
theorem fadd_val_int (x y : F) (a b : ℤ) (hx : x.val = (a : ℚ)) (hy : y.val = (b : ℚ))
    (h : (a + b).natAbs < 2 ^ 53) : (fadd x y).val = ((a + b : ℤ) : ℚ) := by
  simp only [fadd]
  apply roundDyadic_val_int _ _ _ _ h
  rw [Int.cast_add, add_mul, val_align x (min x.e y.e) (min_le_left _ _),
    val_align y (min x.e y.e) (min_le_right _ _), hx, hy]
  push_cast
  ring

/-- Subtracting two floats whose values are integers of small magnitude
is exact. -/
theorem fsub_val_int (x y : F) (a b : ℤ) (hx : x.val = (a : ℚ)) (hy : y.val = (b : ℚ))
    (h : (a - b).natAbs < 2 ^ 53) : (fsub x y).val = ((a - b : ℤ) : ℚ) := by
  simp only [fsub]
  have hy2 : (F.neg y).val = ((-b : ℤ) : ℚ) := by
    rw [F.val_neg, hy]
    push_cast
    ring
  have := fadd_val_int x (F.neg y) a (-b) hx hy2 (by omega)
  rw [this]
  push_cast
  ring

/-- When the value `a/b` is below `2^53`, `pickE` returns a nonpositive
exponent. -/
theorem pickE_nonpos (a b : ℕ) (_hb : 0 < b) (h : a < 2 ^ 53 * b) : pickE a b ≤ 0 := by
  have hba : blen a ≤ 53 + blen b := by
    apply blen_le_of_lt
    calc a < 2 ^ 53 * b := h
    _ ≤ 2 ^ 53 * 2 ^ blen b := by
        have := lt_two_pow_blen b
        exact Nat.mul_le_mul_left _ (by omega)
    _ = 2 ^ (53 + blen b) := (pow_add 2 53 (blen b)).symm
  simp only [pickE]
  set e1 : ℤ := (blen a : ℤ) - (blen b : ℤ) - 52 with he1def
  have he1le : e1 ≤ 1 := by
    rw [he1def]
    omega
  split
  · rename_i htest
    by_contra hgt
    push_neg at hgt
    have he11 : e1 = 1 := by omega
    rw [he11] at htest
    simp only [scaledPair] at htest
    norm_num at htest
    omega
  · omega

/-- `Number(amount)` of a whole-dollar amount (`100 * k` cents with
`k < 2^53`) is exactly `k`. -/
theorem divRound_val_dollars (k : ℕ) (hpos : 0 < k) (hk : k < 2 ^ 53) :
    (divRound (100 * k) 100).val = (k : ℚ) := by
  have hE : pickE (100 * k) 100 ≤ 0 := by
    apply pickE_nonpos _ _ (by norm_num)
    have h100 : (2 : ℕ) ^ 53 * 100 = 900719925474099200 := by norm_num
    omega
  simp only [divRound]
  set e := pickE (100 * k) 100 with hedef
  have hsp : scaledPair (100 * k) 100 e = (100 * k * 2 ^ (-e).toNat, 100) := by
    simp only [scaledPair, if_pos hE]
  rw [hsp]
  dsimp only
  have hdiv : 100 * k * 2 ^ (-e).toNat / 100 = k * 2 ^ (-e).toNat := by
    rw [mul_assoc, Nat.mul_div_cancel_left _ (by norm_num : 0 < 100)]
  have hmod : 100 * k * 2 ^ (-e).toNat % 100 = 0 := by
    rw [mul_assoc]
    exact Nat.mul_mod_right 100 _
  rw [hdiv, hmod]
  have hr : rnd53 (k * 2 ^ (-e).toNat) 0 100 = k * 2 ^ (-e).toNat := by
    simp [rnd53]
  rw [hr, F.val]
  have ht : ((-e).toNat : ℤ) = -e := Int.toNat_of_nonneg (by omega)
  push_cast
  rw [← zpow_natCast (2 : ℚ) (-e).toNat, ht, mul_assoc,
    ← zpow_add₀ (by norm_num : (2 : ℚ) ≠ 0), neg_add_cancel, zpow_zero, mul_one]

/-- `jsNumber` of whole dollars is exact. -/
theorem jsNumber_dollars (k : ℕ) (hk : k < 2 ^ 53) :
    (jsNumber (100 * (k : ℤ))).val = (k : ℚ) := by
  by_cases hk0 : k = 0
  · subst hk0
    simp [jsNumber, F.val_zero]
  · have hkpos : 0 < k := Nat.pos_of_ne_zero hk0
    rw [jsNumber]
    have hc1 : ¬ (100 * (k : ℤ) < 0) := by omega
    have hc2 : ¬ (100 * (k : ℤ) = 0) := by omega
    simp only [hc1, hc2, if_false]
    have hna : (100 * (k : ℤ)).natAbs = 100 * k := by omega
    rw [hna]
    exact divRound_val_dollars k hkpos hk

/-- The left fold of `fadd` over whole-dollar floats is the exact sum. -/
theorem foldl_fadd_dollars : ∀ (cents : List ℤ) (acc : F) (A : ℕ),
    (∀ c ∈ cents, ∃ k : ℕ, k < 2 ^ 40 ∧ c = 100 * (k : ℤ)) →
    acc.val = (A : ℚ) →
    A + (cents.map (fun c => c.toNat / 100)).sum < 2 ^ 53 →
    ((cents.map jsNumber).foldl fadd acc).val =
      ((A + (cents.map (fun c => c.toNat / 100)).sum : ℕ) : ℚ) := by
  intro cents
  induction cents with
  | nil =>
    intro acc A _ hacc _
    simpa using hacc
  | cons c rest ih =>
    intro acc A h hacc hb
    obtain ⟨k, hk40, hck⟩ := h c (List.mem_cons_self c rest)
    have hckd : c.toNat / 100 = k := by
      rw [hck]
      omega
    simp only [List.map_cons, List.foldl_cons, List.sum_cons] at hb ⊢
    rw [hckd] at hb ⊢
    have hjv : (jsNumber c).val = (k : ℚ) := by
      rw [hck]
      exact jsNumber_dollars k (by omega)
    have hstep : (fadd acc (jsNumber c)).val = ((A + k : ℕ) : ℚ) := by
      have := fadd_val_int acc (jsNumber c) (A : ℤ) (k : ℤ)
        (by exact_mod_cast hacc) (by exact_mod_cast hjv) (by omega)
      rw [this]
      push_cast
      ring
    have hrec := ih (fadd acc (jsNumber c)) (A + k)
      (fun c' hc' => h c' (List.mem_cons_of_mem _ hc')) hstep (by omega)
    rw [hrec]
    congr 1
    omega

/-- `sumAmounts` over whole-dollar cent amounts is the exact dollar sum. -/
theorem sumAmounts_dollars (cents : List ℤ)
    (h : ∀ c ∈ cents, ∃ k : ℕ, k < 2 ^ 40 ∧ c = 100 * (k : ℤ))
    (hsum : (cents.map (fun c => c.toNat / 100)).sum < 2 ^ 53) :
    (sumAmounts cents).val = (((cents.map (fun c => c.toNat / 100)).sum : ℕ) : ℚ) := by
  have := foldl_fadd_dollars cents F.zero 0 h (by simp [F.val_zero]) (by omega)
  simpa [sumAmounts] using this

/-- Bound used to apply `sumAmounts_dollars`: at most `8192` rows of less
than `2^40` dollars each. -/
theorem dollars_sum_lt (cents : List ℤ)
    (h : ∀ c ∈ cents, ∃ k : ℕ, k < 2 ^ 40 ∧ c = 100 * (k : ℤ))
    (hlen : cents.length ≤ 8192) :
    (cents.map (fun c => c.toNat / 100)).sum < 2 ^ 53 := by
  have hle : ∀ x ∈ cents.map (fun c => c.toNat / 100), x ≤ 2 ^ 40 - 1 := by
    intro x hx
    obtain ⟨c, hc, rfl⟩ := List.mem_map.mp hx
    obtain ⟨k, hk, rfl⟩ := h c hc
    omega
  have hs := List.sum_le_card_nsmul (cents.map fun c => c.toNat / 100) (2 ^ 40 - 1) hle
  rw [List.length_map] at hs
  simp only [smul_eq_mul] at hs
  have h40 : (2 : ℕ) ^ 40 = 1099511627776 := by norm_num
  have h53 : (2 : ℕ) ^ 53 = 9007199254740992 := by norm_num
  have hmul : cents.length * (2 ^ 40 - 1) ≤ 8192 * (2 ^ 40 - 1) :=
    Nat.mul_le_mul_right _ hlen
  omega

/-- The strict comparison `fltB` decides comparison of the represented
values. -/
theorem fltB_iff_val (x y : F) : fltB x y = true ↔ x.val < y.val := by
  simp only [fltB, decide_eq_true_eq]
  rw [← val_align x (min x.e y.e) (min_le_left _ _),
    ← val_align y (min x.e y.e) (min_le_right _ _),
    mul_lt_mul_right (zpow_pos (by norm_num : (0 : ℚ) < 2) _)]
  exact Int.cast_lt.symm

/-- JS `x || 0` does not change the represented value. -/
theorem jsOr0_val (x : F) : (jsOr0 x).val = x.val := by
  rw [jsOr0]
  split
  · rename_i h
    rw [F.val_zero, F.val, h]
    simp
  · rfl

theorem insertByDate_perm {α : Type} (key : α → ℕ) (x : α) :
    ∀ l : List α, List.Perm (insertByDate key x l) (x :: l) := by
  intro l
  induction l with
  | nil => simp [insertByDate]
  | cons y ys ih =>
    rw [insertByDate]
    split
    · exact List.Perm.refl _
    · exact (ih.cons y).trans (List.Perm.swap x y ys)

theorem sortByDateDesc_perm {α : Type} (key : α → ℕ) (l : List α) :
    List.Perm (sortByDateDesc key l) l := by
  induction l with
  | nil => simp [sortByDateDesc]
  | cons x xs ih =>
    simp only [sortByDateDesc, List.foldr_cons]
    exact (insertByDate_perm key x _).trans (ih.cons x)

theorem wholeDollar_exists (c : ℤ) (h : wholeDollar c) :
    ∃ k : ℕ, k < 2 ^ 40 ∧ c = 100 * (k : ℤ) := by
  obtain ⟨h0, hm, hlt⟩ := h
  have h46 : (2 : ℤ) ^ 46 = 70368744177664 := by norm_num
  have h40 : (2 : ℕ) ^ 40 = 1099511627776 := by norm_num
  exact ⟨c.toNat / 100, by omega, by omega⟩

/-- Whole-dollar summation is exact: the float fold returns the exact
dollar total (which stays below `2^53`). -/
theorem sumAmounts_whole (cents : List ℤ) (h : ∀ c ∈ cents, wholeDollar c)
    (hlen : cents.length ≤ 8192) :
    (sumAmounts cents).val = ((dollarsOf cents : ℕ) : ℚ) ∧ dollarsOf cents < 2 ^ 53 := by
  have hex : ∀ c ∈ cents, ∃ k : ℕ, k < 2 ^ 40 ∧ c = 100 * (k : ℤ) :=
    fun c hc => wholeDollar_exists c (h c hc)
  have hb := dollars_sum_lt cents hex hlen
  exact ⟨sumAmounts_dollars cents hex hb, hb⟩

theorem dollarsOf_perm (l₁ l₂ : List ℤ) (h : List.Perm l₁ l₂) :
    dollarsOf l₁ = dollarsOf l₂ :=
  (h.map _).sum_eq

theorem find?_append_of_none {α : Type} (p : α → Bool) (l₁ l₂ : List α)
    (h : l₁.find? p = none) : (l₁ ++ l₂).find? p = l₂.find? p := by
  induction l₁ with
  | nil => simp
  | cons x xs ih =>
    by_cases hx : p x
    · rw [List.find?_cons_of_pos _ hx] at h
      exact absurd h (by simp)
    · rw [List.find?_cons_of_neg _ hx] at h
      rw [List.cons_append, List.find?_cons_of_neg _ hx]
      exact ih h

/-- The values computed by the search-path `computeBalance` on
whole-dollar rows: exact dollar totals of the per-debtor rows. -/
theorem computeBalance_vals (debts : List DebtRow) (payments : List PaymentRow) (i : String)
    (hd : ∀ d ∈ debts, wholeDollar d.amountCents)
    (hp : ∀ p ∈ payments, wholeDollar p.amountCents)
    (hld : debts.length ≤ 8192) (hlp : payments.length ≤ 8192) :
    (computeBalance debts payments i).vals =
      ((dollarsOf ((debts.filter (fun d => d.debtor_id == i)).map (fun d => d.amountCents)) : ℚ),
       (dollarsOf ((payments.filter (fun p => p.debtor_id == i)).map (fun p => p.amountCents)) : ℚ),
       (dollarsOf ((debts.filter (fun d => d.debtor_id == i)).map (fun d => d.amountCents)) : ℚ) -
         (dollarsOf ((payments.filter (fun p => p.debtor_id == i)).map (fun p => p.amountCents)) : ℚ)) := by
  have hpermd : List.Perm (debtsFor debts i) (debts.filter (fun d => d.debtor_id == i)) :=
    sortByDateDesc_perm _ _
  have hpermp : List.Perm (paymentsFor payments i)
      (payments.filter (fun p => p.debtor_id == i)) :=
    sortByDateDesc_perm _ _
  have hwd : ∀ c ∈ (debtsFor debts i).map (fun d => d.amountCents), wholeDollar c := by
    intro c hc
    obtain ⟨d, hdmem, rfl⟩ := List.mem_map.mp hc
    exact hd d (List.mem_filter.mp (hpermd.subset hdmem)).1
  have hwp : ∀ c ∈ (paymentsFor payments i).map (fun p => p.amountCents), wholeDollar c := by
    intro c hc
    obtain ⟨p, hpmem, rfl⟩ := List.mem_map.mp hc
    exact hp p (List.mem_filter.mp (hpermp.subset hpmem)).1
  have hlend : ((debtsFor debts i).map (fun d => d.amountCents)).length ≤ 8192 := by
    rw [List.length_map, hpermd.length_eq]
    exact le_trans (List.length_filter_le _ _) hld
  have hlenp : ((paymentsFor payments i).map (fun p => p.amountCents)).length ≤ 8192 := by
    rw [List.length_map, hpermp.length_eq]
    exact le_trans (List.length_filter_le _ _) hlp
  have htd := sumAmounts_whole _ hwd hlend
  have htp := sumAmounts_whole _ hwp hlenp
  have hdperm : dollarsOf ((debtsFor debts i).map (fun d => d.amountCents)) =
      dollarsOf ((debts.filter (fun d => d.debtor_id == i)).map (fun d => d.amountCents)) :=
    dollarsOf_perm _ _ (hpermd.map _)
  have hpperm : dollarsOf ((paymentsFor payments i).map (fun p => p.amountCents)) =
      dollarsOf ((payments.filter (fun p => p.debtor_id == i)).map (fun p => p.amountCents)) :=
    dollarsOf_perm _ _ (hpermp.map _)
  have hsub : (fsub (sumAmounts ((debtsFor debts i).map (fun d => d.amountCents)))
      (sumAmounts ((paymentsFor payments i).map (fun p => p.amountCents)))).val =
      (((dollarsOf ((debtsFor debts i).map (fun d => d.amountCents)) : ℤ) -
        (dollarsOf ((paymentsFor payments i).map (fun p => p.amountCents)) : ℤ) : ℤ) : ℚ) := by
    apply fsub_val_int
    · exact_mod_cast htd.1
    · exact_mod_cast htp.1
    · have h1 := htd.2
      have h2 := htp.2
      omega
  simp only [computeBalance, BalanceTriple.vals, Prod.mk.injEq]
  refine ⟨?_, ?_, ?_⟩
  · rw [htd.1, hdperm]
  · rw [htp.1, hpperm]
  · rw [hsub, hdperm, hpperm]
    push_cast
    ring

/-! ## Claims -/

/-- C1 (counterexample): at the spec's own example — balance 45.50
(debts 50.00 and 25.50, payment 30.00), submitted payment 100.00 — the
payment entry path does not succeed with an `OverpaymentWarning`: it
rejects the submission (`exceedsBalance` error toast) and inserts no
payment row. -/
theorem c1_overpayment_counterexample :
    fetchDebtorsWithBalance [⟨"D", "Dana", "555-0100", none, none⟩]
        [⟨"D", 5000, "loan", 1⟩, ⟨"D", 2550, "groceries", 2⟩] [⟨"D", 3000, 3⟩] =
      [⟨"D", "Dana", "555-0100", F.mk 6403555720167424 (-47)⟩] ∧
    (F.mk 6403555720167424 (-47)).val = 91 / 2 ∧
    (jsNumber 10000).val = 100 ∧
    handleSubmitPayment (some "staff-1")
      (fetchDebtorsWithBalance [⟨"D", "Dana", "555-0100", none, none⟩]
        [⟨"D", 5000, "loan", 1⟩, ⟨"D", 2550, "groceries", 2⟩] [⟨"D", 3000, 3⟩])
      "D" (jsNumber 10000) [] = .error .exceedsBalance := by
  refine ⟨rfl, ?_, ?_, rfl⟩
  · rw [F.val]
    norm_num
  · have h : jsNumber 10000 = F.mk 7036874417766400 (-46) := rfl
    rw [h, F.val]
    norm_num

/-- C1 (amended): when the submitted amount strictly exceeds the selected
debtor's balance, the payment entry path rejects the submission with an
error and inserts nothing — the UI blocks overpayment instead of
accepting it alongside a warning; no `OverpaymentWarning`-with-success
signal exists in the code. -/
theorem c1_overpayment_amended (user : Option String) (debtors : List DebtorWithBalance)
    (sel : String) (amount : F) (payments : List PaymentInsert) (d : DebtorWithBalance)
    (hsel : ¬ sel = "")
    (hfind : debtors.find? (fun x => x.id == sel) = some d)
    (hover : fltB d.balance amount = true) :
    handleSubmitPayment user debtors sel amount payments = .error .exceedsBalance := by
  simp [handleSubmitPayment, hsel, hfind, hover]

theorem c1_overpayment_amended_witness :
    handleSubmitPayment (some "staff-1") [⟨"D", "Dana", "555-0100", jsNumber 4550⟩] "D"
      (jsNumber 10000) [] = .error .exceedsBalance :=
  c1_overpayment_amended (some "staff-1") [⟨"D", "Dana", "555-0100", jsNumber 4550⟩] "D"
    (jsNumber 10000) [] ⟨"D", "Dana", "555-0100", jsNumber 4550⟩
    (by decide) (by decide) (by decide)

/-- C2 (counterexample): for query "555" against two debtors with phone
numbers "555-0001" and "555-0002", both debtors match, yet the search
returns "not found" — PostgREST `.single()` errors on a multi-row
result and the handler maps the error to `null` — instead of returning
exactly one of the matches. -/
theorem c2_search_counterexample :
    searchMatches "555" ⟨"a", "Alice", "555-0001", none, none⟩ = true ∧
    searchMatches "555" ⟨"b", "Bob", "555-0002", none, none⟩ = true ∧
    searchDebtor "555" [⟨"a", "Alice", "555-0001", none, none⟩,
      ⟨"b", "Bob", "555-0002", none, none⟩] = none := by
  decide

/-- C2 (amended): `searchDebtor` returns a debtor exactly when the
case-insensitive substring filter matches exactly one row; with zero or
with two or more matching debtors it returns "not found". -/
theorem c2_search_amended (q : String) (debtors : List DebtorRow) (d : DebtorRow) :
    searchDebtor q debtors = some d ↔ debtors.filter (searchMatches q) = [d] := by
  rcases h : debtors.filter (searchMatches q) with _ | ⟨x, _ | ⟨y, rest⟩⟩ <;>
    simp [searchDebtor, h]

/-- C3 (counterexample): the aggregation used for totalDebt/totalPaid
sums binary64 floats, and summation order changes the result: the very
same amounts 0.10, 0.20, 0.30 sum to 0.6000000000000001 in one order
and to 0.6 in the other. -/
theorem c3_order_counterexample :
    List.Perm [(10 : ℤ), 20, 30] [(30 : ℤ), 20, 10] ∧
    (sumAmounts [10, 20, 30]).val ≠ (sumAmounts [30, 20, 10]).val := by
  refine ⟨by decide, ?_⟩
  have h1 : sumAmounts [10, 20, 30] = F.mk 5404319552844596 (-53) := rfl
  have h2 : sumAmounts [30, 20, 10] = F.mk 5404319552844595 (-53) := rfl
  rw [h1, h2, F.val, F.val]
  norm_num

/-- C3 (amended): the totals are aggregated with binary64 floating-point
addition, not exact decimal arithmetic, so summation order can change
the result in general; order-independence does hold when every amount is
a nonnegative whole-dollar value (at most 8192 rows in the DECIMAL(12,2)
range), because then every partial sum is exactly representable. -/
theorem c3_order_amended (l₁ l₂ : List ℤ) (hperm : List.Perm l₁ l₂)
    (hw : ∀ c ∈ l₁, wholeDollar c) (hlen : l₁.length ≤ 8192) :
    (sumAmounts l₁).val = (sumAmounts l₂).val := by
  have hw₂ : ∀ c ∈ l₂, wholeDollar c := fun c hc => hw c (hperm.mem_iff.mpr hc)
  have hlen₂ : l₂.length ≤ 8192 := by
    rw [← hperm.length_eq]
    exact hlen
  rw [(sumAmounts_whole l₁ hw hlen).1, (sumAmounts_whole l₂ hw₂ hlen₂).1,
    dollarsOf_perm l₁ l₂ hperm]

theorem c3_order_amended_witness :
    (sumAmounts [100, 200, 300]).val = (sumAmounts [300, 200, 100]).val :=
  c3_order_amended [100, 200, 300] [300, 200, 100] (by decide) (by decide) (by decide)

/-- C4 (counterexample): the balance computed on read does not equal the
exact sum of the debtor's amounts: for debts 0.10 and 0.20 the code
computes totalDebt 0.30000000000000004, not the exact decimal 0.30. -/
theorem c4_balance_counterexample :
    (computeBalance [⟨"D", 10, "breakfast", 1⟩, ⟨"D", 20, "lunch", 2⟩] [] "D").total_debt.val
      ≠ 3 / 10 := by
  have h : (computeBalance [⟨"D", 10, "breakfast", 1⟩, ⟨"D", 20, "lunch", 2⟩] [] "D").total_debt
      = F.mk 5404319552844596 (-54) := rfl
  rw [h, F.val]
  norm_num

/-- C4 (amended): the totals are binary64 sums, which equal the exact
sums whenever every amount is a nonnegative whole-dollar value (at most
8192 rows each side), and then balance = totalDebt − totalPaid exactly;
a debtor with zero debts and zero payments yields {0, 0, 0}; and the
spec's example — debts [50.00, 25.50], payments [30.00] — is computed
exactly as {75.50, 30.00, 45.50} because those values are exactly
representable in binary64. -/
theorem c4_balance_amended :
    (∀ (did : String) (debts : List DebtRow) (payments : List PaymentRow),
      (∀ d ∈ debts, d.debtor_id = did ∧ wholeDollar d.amountCents) →
      (∀ p ∈ payments, p.debtor_id = did ∧ wholeDollar p.amountCents) →
      debts.length ≤ 8192 → payments.length ≤ 8192 →
      (computeBalance debts payments did).vals =
        ((dollarsOf (debts.map (fun d => d.amountCents)) : ℚ),
         (dollarsOf (payments.map (fun p => p.amountCents)) : ℚ),
         (dollarsOf (debts.map (fun d => d.amountCents)) : ℚ) -
           (dollarsOf (payments.map (fun p => p.amountCents)) : ℚ))) ∧
    (∀ did : String, (computeBalance [] [] did).vals = (0, 0, 0)) ∧
    (computeBalance [⟨"D", 5000, "loan", 1⟩, ⟨"D", 2550, "groceries", 2⟩]
      [⟨"D", 3000, 3⟩] "D").vals = (151 / 2, 30, 91 / 2) := by
  refine ⟨?_, ?_, ?_⟩
  · intro did debts payments hd hp hld hlp
    have hfd : debts.filter (fun d => d.debtor_id == did) = debts :=
      List.filter_eq_self.mpr (fun d hmem => by
        rw [beq_iff_eq]
        exact (hd d hmem).1)
    have hfp : payments.filter (fun p => p.debtor_id == did) = payments :=
      List.filter_eq_self.mpr (fun p hmem => by
        rw [beq_iff_eq]
        exact (hp p hmem).1)
    have := computeBalance_vals debts payments did (fun d hm => (hd d hm).2)
      (fun p hm => (hp p hm).2) hld hlp
    rw [hfd, hfp] at this
    exact this
  · intro did
    have h0 : computeBalance [] [] did = ⟨F.zero, F.zero, F.zero⟩ := rfl
    rw [h0]
    simp [BalanceTriple.vals, F.val_zero]
  · have h : computeBalance [⟨"D", 5000, "loan", 1⟩, ⟨"D", 2550, "groceries", 2⟩]
        [⟨"D", 3000, 3⟩] "D" =
        ⟨F.mk 5312840185413632 (-46), F.mk 8444249301319680 (-48),
         F.mk 6403555720167424 (-47)⟩ := rfl
    rw [h]
    simp only [BalanceTriple.vals, F.val, Prod.mk.injEq]
    norm_num

theorem c4_balance_amended_witness :
    (computeBalance [⟨"D", 200, "fuel", 1⟩] [⟨"D", 100, 2⟩] "D").vals =
      ((dollarsOf [(200 : ℤ)] : ℚ), (dollarsOf [(100 : ℤ)] : ℚ),
        (dollarsOf [(200 : ℤ)] : ℚ) - (dollarsOf [(100 : ℤ)] : ℚ)) := by
  have := c4_balance_amended.1 "D" [⟨"D", 200, "fuel", 1⟩] [⟨"D", 100, 2⟩]
    (by decide) (by decide) (by decide) (by decide)
  simpa using this

/-- C5 (counterexample): a caller holding only the viewer role who issues
`deleteDebtor` does not receive a `Forbidden` error: row-level security
on DELETE silently filters the rows, so the operation completes as a
no-op (zero rows affected, no error), unlike the three insert
operations. -/
theorem c5_viewer_counterexample :
    ¬ has_role ⟨["v"], [⟨"v", none, "Vera", Role.viewer⟩], [("v", Role.viewer)]⟩ "v"
      Role.admin ∧
    deleteDebtor ⟨["v"], [⟨"v", none, "Vera", Role.viewer⟩], [("v", Role.viewer)]⟩ "v"
      ⟨[⟨"D", "Noor", "555", none, none⟩], [⟨"D", 1000, "seed", 1⟩], [⟨"D", 500, 2⟩]⟩ "D" =
      ⟨[⟨"D", "Noor", "555", none, none⟩], [⟨"D", 1000, "seed", 1⟩], [⟨"D", 500, 2⟩]⟩ :=
  ⟨by decide, rfl⟩

/-- C5 (amended): for a caller all of whose role rows are viewer,
`registerDebtor`, `recordDebt` and `recordPayment` fail with the
row-level-security Forbidden error and change no state; `deleteDebtor`
also changes no state, but it completes without an error (RLS filters
the deletable rows to zero instead of rejecting the statement). -/
theorem c5_viewer_amended (auth : AuthState) (uid : String) (st : StoreState)
    (newId : String) (row : DebtorInsert) (did : String) (c : ℤ) (reason : String)
    (date : ℕ)
    (hv : ∀ pr ∈ auth.user_roles, pr.1 = uid → pr.2 = Role.viewer) :
    insertDebtor auth uid st newId row = .error .forbidden ∧
    insertDebt auth uid st did c reason date = .error .forbidden ∧
    insertPayment auth uid st did c date = .error .forbidden ∧
    deleteDebtor auth uid st did = st := by
  have hadmin : ¬ has_role auth uid Role.admin := by
    intro hmem
    exact Role.noConfusion (hv (uid, Role.admin) hmem rfl)
  have hstaff : ¬ has_role auth uid Role.staff := by
    intro hmem
    exact Role.noConfusion (hv (uid, Role.staff) hmem rfl)
  have hcw : ¬ canWriteRLS auth uid := by
    intro h
    rcases h with h | h
    · exact hadmin h
    · exact hstaff h
  refine ⟨?_, ?_, ?_, ?_⟩
  · simp only [insertDebtor]
    rw [if_neg hcw]
  · simp only [insertDebt]
    rw [if_pos hcw]
  · simp only [insertPayment]
    rw [if_pos hcw]
  · simp only [deleteDebtor]
    rw [if_neg hadmin]

theorem c5_viewer_amended_witness :
    insertDebtor ⟨["v"], [⟨"v", none, "Vera", Role.viewer⟩], [("v", Role.viewer)]⟩ "v"
      ⟨[], [], []⟩ "id9" ⟨"Noor", "555", none, none⟩ = .error .forbidden ∧
    insertDebt ⟨["v"], [⟨"v", none, "Vera", Role.viewer⟩], [("v", Role.viewer)]⟩ "v"
      ⟨[], [], []⟩ "D" 100 "seed" 1 = .error .forbidden ∧
    insertPayment ⟨["v"], [⟨"v", none, "Vera", Role.viewer⟩], [("v", Role.viewer)]⟩ "v"
      ⟨[], [], []⟩ "D" 100 1 = .error .forbidden ∧
    deleteDebtor ⟨["v"], [⟨"v", none, "Vera", Role.viewer⟩], [("v", Role.viewer)]⟩ "v"
      ⟨[], [], []⟩ "D" = ⟨[], [], []⟩ :=
  c5_viewer_amended ⟨["v"], [⟨"v", none, "Vera", Role.viewer⟩], [("v", Role.viewer)]⟩ "v"
    ⟨[], [], []⟩ "id9" ⟨"Noor", "555", none, none⟩ "D" 100 "seed" 1 (by decide)

/-- C6 (confirmed): `deleteDebtor` by an admin removes the debtor row
and every `debts` and `payments` row referencing it (`ON DELETE
CASCADE`), keeps exactly the non-referencing rows, and does so as a
single state transition (the cascade runs in the delete's transaction),
so no partially-cascaded state is ever observable. -/
theorem c6_cascade_delete (auth : AuthState) (uid : String) (st : StoreState) (did : String)
    (hadmin : has_role auth uid Role.admin) :
    (∀ d ∈ (deleteDebtor auth uid st did).debts, d.debtor_id ≠ did) ∧
    (∀ p ∈ (deleteDebtor auth uid st did).payments, p.debtor_id ≠ did) ∧
    (∀ r ∈ (deleteDebtor auth uid st did).debtors, r.id ≠ did) ∧
    (deleteDebtor auth uid st did).debts =
      st.debts.filter (fun d => !(d.debtor_id == did)) ∧
    (deleteDebtor auth uid st did).payments =
      st.payments.filter (fun p => !(p.debtor_id == did)) ∧
    (deleteDebtor auth uid st did).debtors =
      st.debtors.filter (fun r => !(r.id == did)) := by
  have hdel : deleteDebtor auth uid st did =
      ⟨st.debtors.filter (fun r => !(r.id == did)),
       st.debts.filter (fun d => !(d.debtor_id == did)),
       st.payments.filter (fun p => !(p.debtor_id == did))⟩ := by
    simp only [deleteDebtor]
    rw [if_pos hadmin]
  rw [hdel]
  refine ⟨?_, ?_, ?_, rfl, rfl, rfl⟩
  · intro d hmem
    have h := (List.mem_filter.mp hmem).2
    simpa using h
  · intro p hmem
    have h := (List.mem_filter.mp hmem).2
    simpa using h
  · intro r hmem
    have h := (List.mem_filter.mp hmem).2
    simpa using h

theorem c6_cascade_delete_witness :
    (deleteDebtor ⟨["a"], [⟨"a", none, "Ada", Role.admin⟩], [("a", Role.admin)]⟩ "a"
      ⟨[⟨"D", "Noor", "555", none, none⟩, ⟨"E", "Omar", "666", none, none⟩],
       [⟨"D", 1000, "seed", 1⟩, ⟨"E", 700, "loan", 2⟩], [⟨"D", 500, 2⟩]⟩ "D").debts =
    ([⟨"D", 1000, "seed", 1⟩, ⟨"E", 700, "loan", 2⟩] : List DebtRow).filter
      (fun d => !(d.debtor_id == "D")) :=
  (c6_cascade_delete ⟨["a"], [⟨"a", none, "Ada", Role.admin⟩], [("a", Role.admin)]⟩ "a"
    ⟨[⟨"D", "Noor", "555", none, none⟩, ⟨"E", "Omar", "666", none, none⟩],
     [⟨"D", 1000, "seed", 1⟩, ⟨"E", 700, "loan", 2⟩], [⟨"D", 500, 2⟩]⟩ "D"
    (by decide)).2.2.2.1

/-- C7 (counterexample): a whitespace-only name trims to the empty
string, yet the insert is not rejected: the store accepts the row with
name "" (the schema has no non-emptiness constraint and the handler
performs no check), so "rejects with ValidationError when the name is
empty after trimming" is false. -/
theorem c7_trim_counterexample :
    trimStr " " = "" ∧
    insertDebtor ⟨["s"], [⟨"s", none, "Sam", Role.staff⟩], [("s", Role.staff)]⟩ "s"
      ⟨[], [], []⟩ "id1" (handleSubmitDebtor " " "0700 111" "" "") =
      .ok ⟨[⟨"id1", "", "0700 111", none, none⟩], [], []⟩ :=
  ⟨rfl, rfl⟩

/-- C7 (amended): the registration path stores all four text fields
trimmed and normalizes empty optional guarantor fields to absent; but a
name or phone that is empty after trimming is not rejected — for any
write-capable caller the insert succeeds whatever the trimmed values
are. -/
theorem c7_trim_amended (auth : AuthState) (uid : String) (st : StoreState) (newId : String)
    (name phone gn gp : String) (hcw : canWriteRLS auth uid) :
    insertDebtor auth uid st newId (handleSubmitDebtor name phone gn gp) =
      .ok { st with debtors := st.debtors ++
        [⟨newId, trimStr name, trimStr phone,
          (if trimStr gn = "" then none else some (trimStr gn)),
          (if trimStr gp = "" then none else some (trimStr gp))⟩] } := by
  simp only [insertDebtor, handleSubmitDebtor]
  rw [if_pos hcw]

theorem c7_trim_amended_witness :
    insertDebtor ⟨["s"], [⟨"s", none, "Sam", Role.staff⟩], [("s", Role.staff)]⟩ "s"
      ⟨[], [], []⟩ "id2" (handleSubmitDebtor "  Ama  " " 0700 " " " "0701") =
      .ok ⟨[⟨"id2", trimStr "  Ama  ", trimStr " 0700 ",
        (if trimStr " " = "" then none else some (trimStr " ")),
        (if trimStr "0701" = "" then none else some (trimStr "0701"))⟩], [], []⟩ :=
  c7_trim_amended ⟨["s"], [⟨"s", none, "Sam", Role.staff⟩], [("s", Role.staff)]⟩ "s"
    ⟨[], [], []⟩ "id2" "  Ama  " " 0700 " " " "0701" (by decide)

/-- C8 (confirmed): user provisioning (the `auth.users` insert together
with its `handle_new_user` trigger, one transaction) gives every new
identity a profile whose role is viewer and a `user_roles` row
`(uid, viewer)`; `get_user_role` resolves the new identity to viewer,
and the no-identity-without-a-role invariant is preserved. -/
theorem c8_default_role (s : AuthState) (uid : String) (phone : Option String)
    (fullName : Option String)
    (hfresh : ∀ p ∈ s.profiles, p.id ≠ uid)
    (hinv : ∀ u ∈ s.users, ∃ r, (u, r) ∈ s.user_roles) :
    get_user_role (handle_new_user s uid phone fullName) uid = some Role.viewer ∧
    (uid, Role.viewer) ∈ (handle_new_user s uid phone fullName).user_roles ∧
    ∀ u ∈ (handle_new_user s uid phone fullName).users,
      ∃ r, (u, r) ∈ (handle_new_user s uid phone fullName).user_roles := by
  refine ⟨?_, ?_, ?_⟩
  · have hnone : s.profiles.find? (fun p => p.id == uid) = none := by
      rw [List.find?_eq_none]
      intro p hp
      simp [hfresh p hp]
    simp only [get_user_role, handle_new_user]
    rw [find?_append_of_none _ _ _ hnone,
      List.find?_cons_of_pos _ (by simp)]
    rfl
  · simp only [handle_new_user]
    exact List.mem_append_right _ (List.mem_singleton.mpr rfl)
  · intro u hu
    simp only [handle_new_user] at hu ⊢
    rcases List.mem_append.mp hu with h | h
    · obtain ⟨r, hr⟩ := hinv u h
      exact ⟨r, List.mem_append_left _ hr⟩
    · have huid : u = uid := by simpa using h
      subst huid
      exact ⟨Role.viewer, List.mem_append_right _ (by simp)⟩

theorem c8_default_role_witness :
    get_user_role (handle_new_user ⟨[], [], []⟩ "u1" none (some "Uma")) "u1" =
      some Role.viewer :=
  (c8_default_role ⟨[], [], []⟩ "u1" none (some "Uma") (by simp) (by simp)).1

/-- C9 (counterexample): for the same fixed rows — amounts 0.10, 0.20,
0.30 recorded at increasing dates — the listing batch computation sums
in storage order and gets totalDebt 0.6000000000000001, while the search
path sums the date-descending set and gets 0.6: the batch and individual
balance computations are not identical. -/
theorem c9_batch_counterexample :
    fetchDebtors [⟨"D", "Nia", "777", none, none⟩]
        [⟨"D", 10, "a", 1⟩, ⟨"D", 20, "b", 2⟩, ⟨"D", 30, "c", 3⟩] [] =
      [(⟨"D", "Nia", "777", none, none⟩,
        ⟨F.mk 5404319552844596 (-53), F.zero, F.mk 5404319552844596 (-53)⟩)] ∧
    computeBalance [⟨"D", 10, "a", 1⟩, ⟨"D", 20, "b", 2⟩, ⟨"D", 30, "c", 3⟩] [] "D" =
      ⟨F.mk 5404319552844595 (-53), F.zero, F.mk 5404319552844595 (-53)⟩ ∧
    (F.mk 5404319552844596 (-53)).val ≠ (F.mk 5404319552844595 (-53)).val := by
  refine ⟨rfl, rfl, ?_⟩
  rw [F.val, F.val]
  norm_num

/-- C9 (amended): the batch (listing) and individual (search) balance
computations agree — with no cross-debtor leakage, each entry depending
only on that debtor's rows — whenever all amounts are nonnegative
whole-dollar values (at most 8192 rows each side), because then both
float summations are exact; in general they may differ since the search
path sums the rows date-descending while the listing sums them in
storage order. -/
theorem c9_batch_amended (debtors : List DebtorRow) (debts : List DebtRow)
    (payments : List PaymentRow)
    (hd : ∀ d ∈ debts, wholeDollar d.amountCents)
    (hp : ∀ p ∈ payments, wholeDollar p.amountCents)
    (hld : debts.length ≤ 8192) (hlp : payments.length ≤ 8192) :
    (fetchDebtors debtors debts payments).map (fun pr => (pr.1, pr.2.vals)) =
      debtors.map (fun dr => (dr, (computeBalance debts payments dr.id).vals)) := by
  simp only [fetchDebtors, List.map_map]
  apply List.map_congr_left
  intro dr _
  simp only [Function.comp]
  refine Prod.ext rfl ?_
  have hdw : ∀ c ∈ (debts.filter (fun d => d.debtor_id == dr.id)).map
      (fun d => d.amountCents), wholeDollar c := by
    intro c hc
    obtain ⟨d, hm, rfl⟩ := List.mem_map.mp hc
    exact hd d (List.mem_filter.mp hm).1
  have hpw : ∀ c ∈ (payments.filter (fun p => p.debtor_id == dr.id)).map
      (fun p => p.amountCents), wholeDollar c := by
    intro c hc
    obtain ⟨p, hm, rfl⟩ := List.mem_map.mp hc
    exact hp p (List.mem_filter.mp hm).1
  have hdl : ((debts.filter (fun d => d.debtor_id == dr.id)).map
      (fun d => d.amountCents)).length ≤ 8192 := by
    rw [List.length_map]
    exact le_trans (List.length_filter_le _ _) hld
  have hpl : ((payments.filter (fun p => p.debtor_id == dr.id)).map
      (fun p => p.amountCents)).length ≤ 8192 := by
    rw [List.length_map]
    exact le_trans (List.length_filter_le _ _) hlp
  have hA := sumAmounts_whole _ hdw hdl
  have hB := sumAmounts_whole _ hpw hpl
  have hAv : (jsOr0 (sumAmounts ((debts.filter (fun d => d.debtor_id == dr.id)).map
      (fun d => d.amountCents)))).val =
      ((dollarsOf ((debts.filter (fun d => d.debtor_id == dr.id)).map
        (fun d => d.amountCents)) : ℕ) : ℚ) := by
    rw [jsOr0_val]
    exact hA.1
  have hBv : (jsOr0 (sumAmounts ((payments.filter (fun p => p.debtor_id == dr.id)).map
      (fun p => p.amountCents)))).val =
      ((dollarsOf ((payments.filter (fun p => p.debtor_id == dr.id)).map
        (fun p => p.amountCents)) : ℕ) : ℚ) := by
    rw [jsOr0_val]
    exact hB.1
  have hsub := fsub_val_int
    (jsOr0 (sumAmounts ((debts.filter (fun d => d.debtor_id == dr.id)).map
      (fun d => d.amountCents))))
    (jsOr0 (sumAmounts ((payments.filter (fun p => p.debtor_id == dr.id)).map
      (fun p => p.amountCents))))
    ((dollarsOf ((debts.filter (fun d => d.debtor_id == dr.id)).map
      (fun d => d.amountCents)) : ℕ) : ℤ)
    ((dollarsOf ((payments.filter (fun p => p.debtor_id == dr.id)).map
      (fun p => p.amountCents)) : ℕ) : ℤ)
    (by exact_mod_cast hAv) (by exact_mod_cast hBv)
    (by
      have h1 := hA.2
      have h2 := hB.2
      omega)
  rw [computeBalance_vals debts payments dr.id hd hp hld hlp]
  simp only [BalanceTriple.vals, Prod.mk.injEq]
  refine ⟨hAv, hBv, ?_⟩
  rw [hsub]
  push_cast
  ring

theorem c9_batch_amended_witness :
    (fetchDebtors [⟨"D", "Nia", "777", none, none⟩] [⟨"D", 200, "fuel", 1⟩] []).map
        (fun pr => (pr.1, pr.2.vals)) =
      [(⟨"D", "Nia", "777", none, none⟩ : DebtorRow)].map (fun dr =>
        (dr, (computeBalance [⟨"D", 200, "fuel", 1⟩] [] dr.id).vals)) :=
  c9_batch_amended [⟨"D", "Nia", "777", none, none⟩] [⟨"D", 200, "fuel", 1⟩] []
    (by decide) (by decide) (by decide) (by decide)

/-- C10 (confirmed): a payment whose amount is exactly the selected
debtor's current balance is accepted and inserted with no warning or
error — the overpayment branch fires only for strictly greater amounts —
and the payment entry path only offers debtors whose balance is strictly
positive. -/
theorem c10_exact_payment (uid : String) (debtors : List DebtorRow) (debts : List DebtRow)
    (payments : List PaymentRow) (sel : String) (amount : F) (pl : List PaymentInsert)
    (d : DebtorWithBalance)
    (hsel : ¬ sel = "")
    (hfind : (fetchDebtorsWithBalance debtors debts payments).find? (fun x => x.id == sel)
      = some d)
    (hval : amount.val = d.balance.val) :
    handleSubmitPayment (some uid) (fetchDebtorsWithBalance debtors debts payments) sel
      amount pl = .ok (pl ++ [⟨sel, amount, uid⟩]) ∧
    ∀ x ∈ fetchDebtorsWithBalance debtors debts payments, 0 < x.balance.val := by
  constructor
  · have hflt : fltB d.balance amount = false := by
      rw [← Bool.not_eq_true, fltB_iff_val, hval]
      exact lt_irrefl _
    simp [handleSubmitPayment, hsel, hfind, hflt]
  · intro x hx
    simp only [fetchDebtorsWithBalance] at hx
    have hb := (List.mem_filter.mp hx).2
    have := (fltB_iff_val _ _).mp hb
    rwa [F.val_zero] at this

theorem c10_exact_payment_witness :
    handleSubmitPayment (some "staff-1")
      (fetchDebtorsWithBalance [⟨"D", "Noor", "555", none, none⟩] [⟨"D", 10000, "seed", 1⟩] [])
      "D" (F.mk 7036874417766400 (-46)) [] =
      .ok [⟨"D", F.mk 7036874417766400 (-46), "staff-1"⟩] :=
  (c10_exact_payment "staff-1" [⟨"D", "Noor", "555", none, none⟩] [⟨"D", 10000, "seed", 1⟩]
    [] "D" (F.mk 7036874417766400 (-46)) [] ⟨"D", "Noor", "555", F.mk 7036874417766400 (-46)⟩
    (by decide) (by decide) rfl).1

end DebtBuddy
